import Mathlib

/-!
# Verification of the `moth` statement-extraction and categorization pipeline

Shallow embedding of the core of `src/moth/extractors/chase_legacy.py` and
`src/moth/__main__.py` (the transaction-line extractor's amount interpreter,
date inference and activity-section scanner, and the categorization engine),
together with theorems settling the frozen claims about the spec.

Strings from the Python source are modelled as `List Char` (via `String.data`)
where character-level processing matters; Python `float` results are modelled
as `Option ℚ` (`none` models a raised `ValueError`; the numeric strings this
program feeds to `float` are exact decimals, so ℚ is exact).  Python string
predicates (`strip`, `upper`, `isupper`) are modelled at ASCII fidelity, which
covers every character class the source manipulates.
-/

namespace Moth

/-- Python whitespace characters recognised by `str.strip` (ASCII range). -/
def isPySpace (c : Char) : Bool :=
  c = ' ' ∨ c = '\t' ∨ c = '\n' ∨ c = '\r' ∨ c = Char.ofNat 11 ∨ c = Char.ofNat 12

/-- Model of Python `str.strip()` on the character list. -/
def pyStrip (l : List Char) : List Char :=
  ((l.dropWhile isPySpace).reverse.dropWhile isPySpace).reverse

/-- Model of Python `str.rstrip()` on the character list. -/
def pyRstrip (l : List Char) : List Char :=
  (l.reverse.dropWhile isPySpace).reverse

/-- Here `isStartOf pat l` is Python `l.startswith(pat)` at character-list level. -/
def isStartOf : List Char → List Char → Bool
  | [], _ => true
  | _ :: _, [] => false
  | a :: as, b :: bs => a = b && isStartOf as bs

/-- Here `containsSub pat l` is Python `pat in l` (substring containment). -/
def containsSub (pat : List Char) : List Char → Bool
  | [] => pat.isEmpty
  | c :: t => isStartOf pat (c :: t) || containsSub pat t

/-- Here `endsWithL suf l` is Python `l.endswith(suf)`. -/
def endsWithL (suf l : List Char) : Bool :=
  isStartOf suf.reverse l.reverse

/-- Split a character list at every occurrence of `sep` (Python `str.split(sep)`
for a one-character separator: `"".split(".") = [""]`, separators at the ends
produce empty segments). -/
def splitOnC (sep : Char) : List Char → List (List Char)
  | [] => [[]]
  | c :: t =>
    let r := splitOnC sep t
    if c = sep then [] :: r
    else
      match r with
      | [] => [[c]]
      | h :: t' => (c :: h) :: t'

/-- Numeric value of a digit string (most significant digit first). -/
def digitsVal (l : List Char) : ℕ :=
  l.foldl (fun n c => 10 * n + (c.toNat - 48)) 0

/-- Model of CPython `float(s)` restricted to the strings this program builds:
non-empty mixes of decimal digits and `'.'`.  `float` succeeds iff at least one
digit is present and there is at most one dot (`float(".")`, `float("")` and
`float("..")` raise `ValueError`, modelled as `none`); the value of
`"abc.def"` is the exact decimal `abc + 0.def`. -/
def pyFloat (l : List Char) : Option ℚ :=
  if l.any Char.isDigit then
    match splitOnC '.' l with
    | [intPart] => some (digitsVal intPart)
    | [intPart, fracPart] =>
      some (mkRat (digitsVal intPart * 10 ^ fracPart.length + digitsVal fracPart)
        (10 ^ fracPart.length))
    | _ => none
  else none

/-- The Unicode minus sign `−` accepted by `_amount_to_value`. -/
def unicodeMinus : Char := Char.ofNat 8722

/-- Lines 103–110 of `chase_legacy.py`: strip `$` and `,`, turn a bare leading
`.` into `0.`, then keep only digits and dots (`re.sub(r"[^0-9.]", "", s)`). -/
def amountResidue (s0 : List Char) : List Char :=
  let s1 := s0.filter (fun c => ¬ (c = '$' ∨ c = ','))
  let s := if s1.head? = some '.' then '0' :: s1 else s1
  s.filter (fun c => c.isDigit ∨ c = '.')

/-- Lines 115–118 of `chase_legacy.py`: if the residue has more than one dot,
replace it by the first segment followed by a single dot and the concatenation
of **all** later segments (`parts[0] + "." + "".join(parts[1:])`). -/
def amountDotFix (s2 : List Char) : List Char :=
  match splitOnC '.' s2 with
  | [] => s2
  | p :: rest => if rest.length > 1 then p ++ '.' :: rest.flatten else s2

/-- Lines 103–119 of `chase_legacy.py` (`_amount_to_value` after sign
handling): clean the string, fall back to `0.0` on an empty or `"."` residue,
otherwise apply the multi-dot fix and convert with `float`. -/
def amountMagnitude (s0 : List Char) : Option ℚ :=
  let s2 := amountResidue s0
  if s2 = [] ∨ s2 = ['.'] then some 0
  else pyFloat (amountDotFix s2)

/-- The `has_cr` test of `_amount_to_value` (lines 76–79): the stripped,
upper-cased display string ends in `"CR"`. -/
def hasCRFlag (input : List Char) : Bool :=
  endsWithL ['C', 'R'] ((pyStrip input).map Char.toUpper)

/-- Model of `_amount_to_value` (`chase_legacy.py` lines 65–124) on the
character list of the display string.  `none` models a raised exception in
`float`.  The sequence of cleanups follows the source line by line: strip and
upper-case, detect/strip a trailing `CR`, remove spaces, normalise the Unicode
minus, interpret parentheses and leading/trailing minus as negative, compute
the magnitude, and finally let `CR` force a positive result. -/
def amountToValueL (input : List Char) : Option ℚ :=
  let sU := (pyStrip input).map Char.toUpper
  let hasCr := hasCRFlag input
  let sCr := if hasCr then sU.dropLast.dropLast else sU
  let sSp := sCr.filter (fun c => ¬ c = ' ')
  let sM := sSp.map (fun c => if c = unicodeMinus then '-' else c)
  let parenNeg := sM.head? = some '(' ∧ sM.getLast? = some ')'
  let s1 := if parenNeg then (sM.drop 1).dropLast else sM
  let negLead := parenNeg ∨ s1.head? = some '-'
  let s2 := if s1.head? = some '-' then s1.drop 1 else s1
  let neg := negLead ∨ s2.getLast? = some '-'
  let s3 := if s2.getLast? = some '-' then s2.dropLast else s2
  (amountMagnitude s3).map (fun val => if hasCr then val else if neg then -val else val)

/-- The function `_amount_to_value` on a `String` input. -/
def amountToValue (s : String) : Option ℚ :=
  amountToValueL s.data

/-! ## Date inference (`_infer_full_date` and the year handling of
`_parse_transactions`) -/

/-- Lines 255–258 of `chase_legacy.py` (`_parse_transactions`): a year matched
on the line (`int` of a 2–4 digit group) is windowed to the 2000s when it is
below 100. -/
def adjustLineYear (y : ℕ) : ℕ :=
  if y < 100 then y + 2000 else y

/-- Year component of `_infer_full_date` (`chase_legacy.py` lines 177–188):
prefer a year present on the line; otherwise use the closing year, minus one
when the transaction month is numerically greater than the closing month.
The source formats `(year, m, d)` as a `"YYYY-MM-DD"` string; the claims
concern the year value. -/
def inferFullDateYear (m : ℕ) (closingYear : ℤ) (closingMonth : ℕ)
    (yFromLine : Option ℤ) : ℤ :=
  match yFromLine with
  | some y => y
  | none => if m > closingMonth then closingYear - 1 else closingYear

/-! ## Activity-line extraction (`_extract_activity_lines`) -/

/-- Python `str.isupper()` at ASCII fidelity: at least one cased (alphabetic)
character and no lower-case character. -/
def pyIsUpper (l : List Char) : Bool :=
  l.any (fun c => c.isAlpha) && l.all (fun c => ¬ c.isLower)

/-- Header detection of `_extract_activity_lines` (line 207): the stripped
line contains both `"ACCOUNT"` and `"ACTIVITY"` after upper-casing. -/
def isHeaderLine (lnClean : List Char) : Bool :=
  containsSub "ACCOUNT".data (lnClean.map Char.toUpper) &&
    containsSub "ACTIVITY".data (lnClean.map Char.toUpper)

/-- Heuristic section end (lines 211–216): the stripped line is entirely
upper-case, longer than 6 characters, and does not contain `"ACCOUNT"`. -/
def isSectionEnd (lnClean : List Char) : Bool :=
  pyIsUpper lnClean && decide (lnClean.length > 6) &&
    ! containsSub "ACCOUNT".data lnClean

/-- Python `str.splitlines()` for newline-separated text: split on `'\n'`,
with no trailing empty line for text ending in a newline. -/
def splitLinesL (l : List Char) : List (List Char) :=
  let parts := splitOnC '\n' l
  if parts.getLast? = some [] then parts.dropLast else parts

/-- Line 201: `page_lines = [ln.rstrip() for ln in text.splitlines()]`. -/
def pageLines (page : List Char) : List (List Char) :=
  (splitLinesL page).map pyRstrip

/-- Per-line body of the `_extract_activity_lines` loop (lines 204–219),
acting on the pair (collected lines, `in_section`). -/
def activityStep (acc : List (List Char) × Bool) (ln : List Char) :
    List (List Char) × Bool :=
  let lnClean := pyStrip ln
  if isHeaderLine lnClean then (acc.1, true)
  else
    let inSection := if acc.2 && isSectionEnd lnClean then false else acc.2
    if inSection then (acc.1 ++ [ln], inSection) else (acc.1, inSection)

/-- Model of `_extract_activity_lines` (lines 194–220): pages are processed in order
into one shared list of collected lines, and `in_section` is reset to `False`
at the start of every page; empty page text is skipped. -/
def extractActivityLines (pages : List (List Char)) : List (List Char) :=
  pages.foldl
    (fun lines page =>
      if page.isEmpty then lines
      else ((pageLines page).foldl activityStep (lines, false)).1)
    []

/-- The lines a single page contributes when scanned with a fresh
`in_section = False` flag. -/
def processPage (page : List Char) : List (List Char) :=
  if page.isEmpty then []
  else ((pageLines page).foldl activityStep ([], false)).1

/-! ## Categorization engine (`__main__.py`, `categorize` and its helpers)

Ledger rows are modelled with the six required CSV columns; the master
taxonomy is the `group → categories` mapping produced by
`_load_group_category_master`, and the rule store is the
`description → (group, category)` mapping of `_load_category_rules`,
modelled as an association list with unique keys (the engine only ever adds
a binding for a key that is absent, so insertion order is preserved and
lookup agrees with the Python dict).  Printed warnings are modelled as a
list of `(row index, warning)` events, and the local counters of
`categorize` as fields of the engine state. -/

/-- One ledger row (the required columns of the transactions CSV). -/
structure Row where
  statement_date : String
  date : String
  description : String
  amount : String
  group : String
  category : String
deriving DecidableEq

/-- Model of `TxStatus` (lines 145–148 of `__main__.py`). -/
inductive TxStatus where
  | manual
  | autoPending
  | unassigned
deriving DecidableEq

/-- The per-row warnings printed by `categorize` (lines 336–339, 345–350,
388–393). -/
inductive CatWarning where
  | categoryWithoutGroup
  | groupWithoutCategory
  | invalidPair
  | ruleConflict
deriving DecidableEq

/-- The master taxonomy `group_to_categories`. -/
abbrev GroupMap := List (String × List String)

/-- The rule store `rules : description → (group, category)`. -/
abbrev Rules := List (String × String × String)

/-- Python `str.strip()` lifted to `String` (see `pyStrip`); used for the
`.strip()` calls of `categorize` on row fields.  (`String.trim` is not used
because the engine state must evaluate inside the kernel.) -/
def pyStripS (s : String) : String :=
  ⟨pyStrip s.data⟩

/-- Line 344 + 345 of `__main__.py`: `cat in group_to_categories.get(grp, set())`. -/
def validPair (g2c : GroupMap) (grp cat : String) : Bool :=
  match g2c.lookup grp with
  | some cats => cats.contains cat
  | none => false

/-- The mutable state of one `categorize` run: the rule dict, the
`updated_rows` and `row_statuses` accumulators, the printed per-row warnings,
the 1-based `enumerate` index of the next row, and the local counters. -/
structure CatState where
  rules : Rules
  rows : List Row
  statuses : List TxStatus
  warnings : List (ℕ × CatWarning)
  idx : ℕ
  totalRows : ℕ
  alreadyCategorized : ℕ
  autoAssigned : ℕ
  uncategorized : ℕ
  newRules : ℕ
  rulesSkippedInvalidPair : ℕ
  rulesSkippedConflict : ℕ
deriving DecidableEq

/-- Body of the `for idx, row in enumerate(rows, start=1)` loop of
`categorize` (`__main__.py` lines 325–413).  Branches in source order:
the consistency warnings (336–339) and validity warning (342–350), then
`desc == ""` (355–363), the fully-specified branch with rule learning and
conflict handling (366–393), the auto-assignment branch (395–406), and the
partial branch (407–410).  Every path appends exactly one row and one
status. -/
def processRow (g2c : GroupMap) (st : CatState) (row : Row) : CatState :=
  let desc := pyStripS row.description
  let grp := pyStripS row.group
  let cat := pyStripS row.category
  let idx := st.idx
  let warns : List (ℕ × CatWarning) :=
    (if cat ≠ "" ∧ grp = "" then [(idx, CatWarning.categoryWithoutGroup)] else []) ++
    (if grp ≠ "" ∧ cat = "" then [(idx, CatWarning.groupWithoutCategory)] else []) ++
    (if grp ≠ "" ∧ cat ≠ "" ∧ validPair g2c grp cat = false then
      [(idx, CatWarning.invalidPair)] else [])
  let pairIsValid : Prop := grp ≠ "" ∧ cat ≠ "" ∧ validPair g2c grp cat = true
  if desc = "" then
    if _h : pairIsValid then
      { st with
        rows := st.rows ++ [row]
        statuses := st.statuses ++ [TxStatus.manual]
        warnings := st.warnings ++ warns
        idx := idx + 1
        totalRows := st.totalRows + 1
        alreadyCategorized := st.alreadyCategorized + 1 }
    else
      { st with
        rows := st.rows ++ [row]
        statuses := st.statuses ++ [TxStatus.unassigned]
        warnings := st.warnings ++ warns
        idx := idx + 1
        totalRows := st.totalRows + 1
        uncategorized := st.uncategorized + 1 }
  else if grp ≠ "" ∧ cat ≠ "" then
    if validPair g2c grp cat then
      match st.rules.lookup desc with
      | none =>
        { st with
          rules := st.rules ++ [(desc, grp, cat)]
          rows := st.rows ++ [row]
          statuses := st.statuses ++ [TxStatus.manual]
          warnings := st.warnings ++ warns
          idx := idx + 1
          totalRows := st.totalRows + 1
          alreadyCategorized := st.alreadyCategorized + 1
          newRules := st.newRules + 1 }
      | some p =>
        if p = (grp, cat) then
          { st with
            rows := st.rows ++ [row]
            statuses := st.statuses ++ [TxStatus.manual]
            warnings := st.warnings ++ warns
            idx := idx + 1
            totalRows := st.totalRows + 1
            alreadyCategorized := st.alreadyCategorized + 1 }
        else
          { st with
            rows := st.rows ++ [row]
            statuses := st.statuses ++ [TxStatus.manual]
            warnings := st.warnings ++ warns ++ [(idx, CatWarning.ruleConflict)]
            idx := idx + 1
            totalRows := st.totalRows + 1
            alreadyCategorized := st.alreadyCategorized + 1
            rulesSkippedConflict := st.rulesSkippedConflict + 1 }
    else
      { st with
        rows := st.rows ++ [row]
        statuses := st.statuses ++ [TxStatus.unassigned]
        warnings := st.warnings ++ warns
        idx := idx + 1
        totalRows := st.totalRows + 1
        uncategorized := st.uncategorized + 1
        rulesSkippedInvalidPair := st.rulesSkippedInvalidPair + 1 }
  else if grp = "" ∧ cat = "" then
    match st.rules.lookup desc with
    | some (rg, rc) =>
      { st with
        rows := st.rows ++ [{ row with group := rg, category := rc }]
        statuses := st.statuses ++ [TxStatus.autoPending]
        warnings := st.warnings ++ warns
        idx := idx + 1
        totalRows := st.totalRows + 1
        autoAssigned := st.autoAssigned + 1 }
    | none =>
      { st with
        rows := st.rows ++ [row]
        statuses := st.statuses ++ [TxStatus.unassigned]
        warnings := st.warnings ++ warns
        idx := idx + 1
        totalRows := st.totalRows + 1
        uncategorized := st.uncategorized + 1 }
  else
    { st with
      rows := st.rows ++ [row]
      statuses := st.statuses ++ [TxStatus.unassigned]
      warnings := st.warnings ++ warns
      idx := idx + 1
      totalRows := st.totalRows + 1
      uncategorized := st.uncategorized + 1 }

/-- Engine state before the loop (counters zero, `enumerate` index 1). -/
def initState (rules0 : Rules) : CatState :=
  { rules := rules0
    rows := []
    statuses := []
    warnings := []
    idx := 1
    totalRows := 0
    alreadyCategorized := 0
    autoAssigned := 0
    uncategorized := 0
    newRules := 0
    rulesSkippedInvalidPair := 0
    rulesSkippedConflict := 0 }

/-- The whole per-row loop of `categorize` (lines 325–413): fold the loop
body over the ledger rows, starting from the loaded rule store. -/
def categorizeRun (g2c : GroupMap) (rules0 : Rules) (rows : List Row) : CatState :=
  rows.foldl (processRow g2c) (initState rules0)

/-- Line 298 of `__main__.py`. -/
def requiredCols : List String :=
  ["statement_date", "date", "description", "amount", "group", "category"]

/-- The `categorize` command around the loop (lines 289–423): check the
required header columns, and only if none is missing run the loop and write
the updated ledger and rule store.  `none` models the early `return` at
line 303, which happens before either output file is opened for writing, so
both files stay byte-for-byte unchanged. -/
def categorizeCommand (fieldnames : List String) (g2c : GroupMap)
    (rules0 : Rules) (rows : List Row) : Option (List Row × Rules) :=
  let missing := requiredCols.filter (fun c => ¬ fieldnames.contains c)
  if missing ≠ [] then none
  else
    let st := categorizeRun g2c rules0 rows
    some (st.rows, st.rules)

/-- Proof helper: the single row appended to `updated_rows` by one loop
iteration — the row itself, except in the auto-assignment branch, where the
rule's pair is written into it. -/
def fillRow (rules : Rules) (row : Row) : Row :=
  if pyStripS row.description ≠ "" ∧ pyStripS row.group = "" ∧
      pyStripS row.category = "" then
    match rules.lookup (pyStripS row.description) with
    | some (rg, rc) => { row with group := rg, category := rc }
    | none => row
  else row

/-- Invariant driving the idempotence analysis: a row with a complete,
taxonomy-valid pair has a rule entry for its description. -/
def ruleCovered (g2c : GroupMap) (rules : Rules) (row : Row) : Prop :=
  pyStripS row.description ≠ "" → pyStripS row.group ≠ "" →
  pyStripS row.category ≠ "" →
  validPair g2c (pyStripS row.group) (pyStripS row.category) = true →
  (rules.lookup (pyStripS row.description)).isSome

/-! ## Theorems -/

theorem digitsVal_cast_nonneg (l : List Char) : (0 : ℚ) ≤ (digitsVal l : ℚ) := by
  exact_mod_cast Nat.zero_le (digitsVal l)

theorem pyFloat_nonneg {l : List Char} {q : ℚ} (h : pyFloat l = some q) : 0 ≤ q := by
  unfold pyFloat at h
  split at h
  · split at h
    · cases h
      exact digitsVal_cast_nonneg _
    · cases h
      rw [Rat.mkRat_eq_div]
      positivity
    · cases h
  · cases h

theorem amountMagnitude_nonneg {l : List Char} {q : ℚ}
    (h : amountMagnitude l = some q) : 0 ≤ q := by
  simp only [amountMagnitude] at h
  split at h
  · cases h; norm_num
  · exact pyFloat_nonneg h

/-- C1: for every amount display string whose trimmed, upper-cased form ends
in `"CR"`, any value returned by `_amount_to_value` is non-negative,
regardless of parentheses, leading/trailing minus or Unicode minus elsewhere
in the string (a trailing `CR` forces `return +val` with `val ≥ 0`). -/
theorem c1_cr_forces_nonneg (s : String) (hcr : hasCRFlag s.data = true)
    (v : ℚ) (hv : amountToValue s = some v) : 0 ≤ v := by
  simp only [amountToValue, amountToValueL, hcr, if_true] at hv
  obtain ⟨q, hq, hfq⟩ := Option.map_eq_some'.mp hv
  subst hfq
  exact amountMagnitude_nonneg hq

/-- Witness for C1 at the concrete display string `"(45.00)cr"`: the `CR`
marker overrides the parentheses and the interpreted value is `+45`. -/
theorem c1_witness :
    hasCRFlag "(45.00)cr".data = true ∧ amountToValue "(45.00)cr" = some 45 ∧
      (0 : ℚ) ≤ 45 :=
  ⟨by decide, by decide, c1_cr_forces_nonneg "(45.00)cr" (by decide) 45 (by decide)⟩

/-- C6 (code bug): `_amount_to_value("a..")` raises `ValueError` instead of
falling back to `0.0`.  The digit/dot residue of `"a.."` is `".."`, which
escapes the `s2 in {"", "."}` fallback; the multi-dot fix then rebuilds the
string `"."` and `float(".")` raises.  In the model the raised exception is
the `none` result. -/
theorem c6_amount_conversion_raises : amountToValue "a.." = none := by decide

/-- C7 (code bug): on `"1.2.3"` the code computes
`parts[0] + "." + "".join(parts[1:])`, i.e. `"1.23"`, joining **all** later
segments, while its own comment (and the spec) say only the first two numeric
segments are kept, which would give `1.2`.  The interpreted value is
`1.23 = 123/100`, not `12/10`. -/
theorem c7_multi_dot_joins_all_segments :
    amountToValue "1.2.3" = some (123 / 100) ∧ (123 / 100 : ℚ) ≠ 12 / 10 := by
  constructor
  · have h : amountToValue "1.2.3" = some (mkRat 123 100) := by decide
    rw [h, Rat.mkRat_eq_div]
    norm_num
  · norm_num

/-- C5: an explicit year on the line is used directly, with two-digit years
mapped to `2000 + y`; with no year on the line the inferred year is the
closing year minus one exactly when the line's month exceeds the closing
month, and the closing year otherwise. -/
theorem c5_year_inference (m closingMonth : ℕ) (closingYear : ℤ) (y : ℕ) :
    (y < 100 →
      inferFullDateYear m closingYear closingMonth (some (adjustLineYear y)) = 2000 + y) ∧
    (100 ≤ y →
      inferFullDateYear m closingYear closingMonth (some (adjustLineYear y)) = y) ∧
    inferFullDateYear m closingYear closingMonth none =
      (if m > closingMonth then closingYear - 1 else closingYear) := by
  refine ⟨fun h => ?_, fun h => ?_, rfl⟩
  · simp [inferFullDateYear, adjustLineYear, if_pos h]
    ring
  · simp [inferFullDateYear, adjustLineYear, Nat.not_lt.mpr h]

/-- Witness for C5: a December line with no explicit year on a statement
closing in January 2018 lands in 2017, and an explicit two-digit year `17`
becomes 2017. -/
theorem c5_witness :
    ((17 : ℕ) < 100 ∧
      inferFullDateYear 12 2018 1 (some (adjustLineYear 17)) = 2000 + (17 : ℕ)) ∧
    inferFullDateYear 12 2018 1 none = (if 12 > 1 then (2018 : ℤ) - 1 else 2018) :=
  ⟨⟨by decide, (c5_year_inference 12 1 2018 17).1 (by decide)⟩,
    (c5_year_inference 12 1 2018 17).2.2⟩

theorem activityStep_factor (lines : List (List Char)) (b : Bool) (ln : List Char) :
    activityStep (lines, b) ln =
      (lines ++ (activityStep ([], b) ln).1, (activityStep ([], b) ln).2) := by
  simp only [activityStep]
  split_ifs <;> simp

theorem activity_fold_factor (lns : List (List Char)) :
    ∀ (lines : List (List Char)) (b : Bool),
      lns.foldl activityStep (lines, b) =
        (lines ++ (lns.foldl activityStep ([], b)).1,
          (lns.foldl activityStep ([], b)).2) := by
  induction lns with
  | nil => intro lines b; simp
  | cons ln rest ih =>
    intro lines b
    simp only [List.foldl_cons]
    rw [activityStep_factor lines b ln]
    generalize activityStep ([], b) ln = d
    obtain ⟨d1, d2⟩ := d
    rw [ih (lines ++ d1) d2, ih d1 d2]
    simp [List.append_assoc]

theorem no_header_fold_fixed (lns : List (List Char))
    (h : ∀ ln ∈ lns, isHeaderLine (pyStrip ln) = false) :
    lns.foldl activityStep ([], false) = ([], false) := by
  induction lns with
  | nil => rfl
  | cons ln rest ih =>
    have hln := h ln (List.mem_cons_self ln rest)
    have hstep : activityStep ([], false) ln = ([], false) := by
      simp [activityStep, hln]
    rw [List.foldl_cons, hstep]
    exact ih fun l hl => h l (List.mem_cons_of_mem ln hl)

theorem extract_eq_flatten_aux (pages : List (List Char)) :
    ∀ lines : List (List Char),
      pages.foldl
          (fun lines page =>
            if page.isEmpty then lines
            else ((pageLines page).foldl activityStep (lines, false)).1)
          lines =
        lines ++ (pages.map processPage).flatten := by
  induction pages with
  | nil => intro lines; simp
  | cons page rest ih =>
    intro lines
    simp only [List.foldl_cons, List.map_cons, List.flatten_cons]
    by_cases hp : page.isEmpty
    · rw [if_pos hp, ih lines]
      unfold processPage
      rw [if_pos hp]
      simp
    · rw [if_neg hp, ih]
      rw [activity_fold_factor (pageLines page) lines false]
      unfold processPage
      rw [if_neg hp, List.append_assoc]

/-- C10: `in_section` is reset at the start of every page, so the extractor's
output is the concatenation of independent per-page scans, and a page none of
whose (rstripped, then stripped) lines contains both `"ACCOUNT"` and
`"ACTIVITY"` contributes no lines at all — even when the previous page's
activity section was still open at its end. -/
theorem c10_activity_section_resets_per_page (pages : List (List Char))
    (page : List Char) (_hmem : page ∈ pages)
    (hnohdr : ∀ ln ∈ pageLines page, isHeaderLine (pyStrip ln) = false) :
    processPage page = [] ∧
      extractActivityLines pages = (pages.map processPage).flatten := by
  constructor
  · unfold processPage
    split
    · rfl
    · rw [no_header_fold_fixed (pageLines page) hnohdr]
  · unfold extractActivityLines
    exact extract_eq_flatten_aux pages []

/-- Witness for C10: a second page with no `ACCOUNT ACTIVITY` header
contributes nothing, although the first page's section was still open when
the page break occurred. -/
theorem c10_witness :
    processPage "01/03 STORE B 5.00".data = [] ∧
      extractActivityLines
          ["ACCOUNT ACTIVITY\n01/02 STORE A 12.34".data, "01/03 STORE B 5.00".data] =
        ((["ACCOUNT ACTIVITY\n01/02 STORE A 12.34".data,
            "01/03 STORE B 5.00".data]).map processPage).flatten :=
  c10_activity_section_resets_per_page
    ["ACCOUNT ACTIVITY\n01/02 STORE A 12.34".data, "01/03 STORE B 5.00".data]
    "01/03 STORE B 5.00".data (by decide) (by decide)

theorem lookup_append_of_some {l l' : Rules} {k : String} {v : String × String}
    (h : l.lookup k = some v) : (l ++ l').lookup k = some v := by
  induction l with
  | nil => simp [List.lookup] at h
  | cons p t ih =>
    rw [List.cons_append]
    cases p with
    | mk pk pv =>
      simp only [List.lookup] at h ⊢
      by_cases hk : (k == pk) = true
      · rw [hk] at h ⊢; exact h
      · rw [Bool.not_eq_true] at hk
        rw [hk] at h ⊢
        exact ih h

theorem lookup_append_self {l : Rules} {k : String} {v : String × String}
    (h : l.lookup k = none) : (l ++ [(k, v)]).lookup k = some v := by
  induction l with
  | nil => simp [List.lookup]
  | cons p t ih =>
    rw [List.cons_append]
    cases p with
    | mk pk pv =>
      simp only [List.lookup] at h ⊢
      by_cases hk : (k == pk) = true
      · rw [hk] at h; cases h
      · rw [Bool.not_eq_true] at hk
        rw [hk] at h ⊢
        exact ih h

theorem processRow_idx (g2c : GroupMap) (st : CatState) (row : Row) :
    (processRow g2c st row).idx = st.idx + 1 := by
  simp only [processRow]
  repeat' split
  all_goals rfl

theorem processRow_rows_shape (g2c : GroupMap) (st : CatState) (row : Row) :
    ∃ r, (processRow g2c st row).rows = st.rows ++ [r] := by
  simp only [processRow]
  repeat' split
  all_goals exact ⟨_, rfl⟩

theorem processRow_statuses_shape (g2c : GroupMap) (st : CatState) (row : Row) :
    ∃ x, (processRow g2c st row).statuses = st.statuses ++ [x] := by
  simp only [processRow]
  repeat' split
  all_goals exact ⟨_, rfl⟩

theorem processRow_warn_mem (g2c : GroupMap) (st : CatState) (row : Row)
    {p : ℕ × CatWarning} (hp : p ∈ (processRow g2c st row).warnings) :
    p ∈ st.warnings ∨ p.1 = st.idx := by
  simp only [processRow] at hp
  repeat' split at hp
  all_goals
    simp only [List.append_assoc, List.mem_append, List.mem_singleton] at hp
    rcases hp with hp | hp
    · exact Or.inl hp
    · simp_all

theorem processRow_auto_mono (g2c : GroupMap) (st : CatState) (row : Row) :
    st.autoAssigned ≤ (processRow g2c st row).autoAssigned := by
  simp only [processRow]
  repeat' split
  all_goals simp

theorem processRow_bothset_rows (g2c : GroupMap) (st : CatState) (row : Row)
    (hg : pyStripS row.group ≠ "") (hc : pyStripS row.category ≠ "") :
    (processRow g2c st row).rows = st.rows ++ [row] := by
  simp only [processRow]
  repeat' split
  all_goals simp_all

theorem processRow_fill (g2c : GroupMap) (st : CatState) (row : Row)
    {rg rc : String} (hd : pyStripS row.description ≠ "")
    (hg : pyStripS row.group = "") (hc : pyStripS row.category = "")
    (hr : st.rules.lookup (pyStripS row.description) = some (rg, rc)) :
    processRow g2c st row =
      { st with
        rows := st.rows ++ [{ row with group := rg, category := rc }]
        statuses := st.statuses ++ [TxStatus.autoPending]
        idx := st.idx + 1
        totalRows := st.totalRows + 1
        autoAssigned := st.autoAssigned + 1 } := by
  simp only [processRow]
  repeat' split
  all_goals simp_all

theorem processRow_empty_pair_warnings (g2c : GroupMap) (st : CatState) (row : Row)
    (hg : pyStripS row.group = "") (hc : pyStripS row.category = "") :
    (processRow g2c st row).warnings = st.warnings := by
  simp only [processRow]
  repeat' split
  all_goals simp_all

theorem processRow_invalid_rules (g2c : GroupMap) (st : CatState) (row : Row)
    (hg : pyStripS row.group ≠ "") (hc : pyStripS row.category ≠ "")
    (hinv : validPair g2c (pyStripS row.group) (pyStripS row.category) = false) :
    (processRow g2c st row).rules = st.rules := by
  simp only [processRow]
  repeat' split
  all_goals simp_all

theorem processRow_rules_cases (g2c : GroupMap) (st : CatState) (row : Row) :
    (processRow g2c st row).rules = st.rules ∨
      ((processRow g2c st row).rules =
          st.rules ++
            [(pyStripS row.description, pyStripS row.group, pyStripS row.category)] ∧
        pyStripS row.description ≠ "" ∧ pyStripS row.group ≠ "" ∧
        pyStripS row.category ≠ "" ∧
        validPair g2c (pyStripS row.group) (pyStripS row.category) = true ∧
        st.rules.lookup (pyStripS row.description) = none) := by
  simp only [processRow]
  repeat' split
  all_goals simp_all
  all_goals assumption

theorem processRow_lookup_mono (g2c : GroupMap) (st : CatState) (row : Row)
    {d : String} {v : String × String} (h : st.rules.lookup d = some v) :
    (processRow g2c st row).rules.lookup d = some v := by
  rcases processRow_rules_cases g2c st row with he | ⟨he, _⟩ <;> rw [he]
  · exact h
  · exact lookup_append_of_some h

theorem run_rows_extend (g2c : GroupMap) (rows : List Row) :
    ∀ st : CatState, ∃ t, (rows.foldl (processRow g2c) st).rows = st.rows ++ t := by
  induction rows with
  | nil => intro st; exact ⟨[], by simp⟩
  | cons r rest ih =>
    intro st
    obtain ⟨r1, h1⟩ := processRow_rows_shape g2c st r
    obtain ⟨t, ht⟩ := ih (processRow g2c st r)
    refine ⟨r1 :: t, ?_⟩
    rw [List.foldl_cons, ht, h1, List.append_assoc]
    rfl

theorem run_statuses_extend (g2c : GroupMap) (rows : List Row) :
    ∀ st : CatState, ∃ t,
      (rows.foldl (processRow g2c) st).statuses = st.statuses ++ t := by
  induction rows with
  | nil => intro st; exact ⟨[], by simp⟩
  | cons r rest ih =>
    intro st
    obtain ⟨x1, h1⟩ := processRow_statuses_shape g2c st r
    obtain ⟨t, ht⟩ := ih (processRow g2c st r)
    refine ⟨x1 :: t, ?_⟩
    rw [List.foldl_cons, ht, h1, List.append_assoc]
    rfl

theorem run_lookup_mono (g2c : GroupMap) (rows : List Row) (st : CatState)
    {d : String} {v : String × String} (h : st.rules.lookup d = some v) :
    ((rows.foldl (processRow g2c) st).rules).lookup d = some v := by
  induction rows generalizing st with
  | nil => exact h
  | cons r rest ih =>
    rw [List.foldl_cons]
    exact ih (processRow g2c st r) (processRow_lookup_mono g2c st r h)

theorem run_auto_mono (g2c : GroupMap) (rows : List Row) (st : CatState) :
    st.autoAssigned ≤ (rows.foldl (processRow g2c) st).autoAssigned := by
  induction rows generalizing st with
  | nil => exact le_refl _
  | cons r rest ih =>
    rw [List.foldl_cons]
    exact le_trans (processRow_auto_mono g2c st r) (ih (processRow g2c st r))

theorem run_warn_mem (g2c : GroupMap) (rows : List Row) (st : CatState)
    {p : ℕ × CatWarning} (hp : p ∈ (rows.foldl (processRow g2c) st).warnings) :
    p ∈ st.warnings ∨ st.idx ≤ p.1 := by
  induction rows generalizing st with
  | nil => exact Or.inl hp
  | cons r rest ih =>
    rw [List.foldl_cons] at hp
    rcases ih (processRow g2c st r) hp with hin | hle
    · rcases processRow_warn_mem g2c st r hin with h1 | h1
      · exact Or.inl h1
      · exact Or.inr (le_of_eq h1.symm)
    · rw [processRow_idx] at hle
      exact Or.inr (le_trans (Nat.le_succ _) hle)

theorem getElem?_append_len {α : Type} (l₁ : List α) (a : α) (l₂ : List α) :
    (l₁ ++ a :: l₂)[l₁.length]? = some a := by
  induction l₁ with
  | nil => simp
  | cons x t ih => simpa using ih

theorem run_rows_bothset (g2c : GroupMap) (rows : List Row) :
    ∀ (st : CatState) (i : ℕ) (row : Row), rows[i]? = some row →
      pyStripS row.group ≠ "" → pyStripS row.category ≠ "" →
      ((rows.foldl (processRow g2c) st).rows)[st.rows.length + i]? = some row := by
  induction rows with
  | nil => intro st i row h; simp at h
  | cons r rest ih =>
    intro st i row h hg hc
    cases i with
    | zero =>
      simp only [List.getElem?_cons_zero, Option.some_inj] at h
      subst h
      have hrows := processRow_bothset_rows g2c st r hg hc
      obtain ⟨t, ht⟩ := run_rows_extend g2c rest (processRow g2c st r)
      rw [List.foldl_cons, ht, hrows, List.append_assoc, Nat.add_zero]
      exact getElem?_append_len _ _ _
    | succ n =>
      simp only [List.getElem?_cons_succ] at h
      have hrec := ih (processRow g2c st r) n row h hg hc
      obtain ⟨r1, h1⟩ := processRow_rows_shape g2c st r
      rw [h1, List.length_append, List.length_singleton] at hrec
      rw [List.foldl_cons,
        show st.rows.length + (n + 1) = st.rows.length + 1 + n by omega]
      exact hrec

/-- C3: a rule stored for a description at the start of the run survives the
run unchanged, and a later row carrying a different, taxonomy-valid pair for
that description is written back to the ledger with its own values intact
(the conflict branch touches neither the rule nor the row). -/
theorem c3_rule_stability (g2c : GroupMap) (rules0 : Rules) (rows0 : List Row)
    (d : String) (p : String × String) (i : ℕ) (row : Row)
    (hstored : rules0.lookup d = some p)
    (hrow : rows0[i]? = some row)
    (_hd : pyStripS row.description = d)
    (hg : pyStripS row.group ≠ "") (hc : pyStripS row.category ≠ "")
    (_hvalid : validPair g2c (pyStripS row.group) (pyStripS row.category) = true)
    (_hdiff : (pyStripS row.group, pyStripS row.category) ≠ p) :
    (categorizeRun g2c rules0 rows0).rules.lookup d = some p ∧
      ((categorizeRun g2c rules0 rows0).rows)[i]? = some row := by
  constructor
  · exact run_lookup_mono g2c rows0 (initState rules0) hstored
  · have h := run_rows_bothset g2c rows0 (initState rules0) i row hrow hg hc
    simpa [initState, categorizeRun] using h

/-- Witness for C3: the stored rule `X ↦ (G, D)` survives a row carrying the
different valid pair `(G, C)`, and the row keeps its own values. -/
theorem c3_witness :
    (categorizeRun [("G", ["C"])] [("X", "G", "D")]
        [⟨"", "", "X", "", "G", "C"⟩]).rules.lookup "X" = some ("G", "D") ∧
      ((categorizeRun [("G", ["C"])] [("X", "G", "D")]
          [⟨"", "", "X", "", "G", "C"⟩]).rows)[0]? =
        some ⟨"", "", "X", "", "G", "C"⟩ :=
  c3_rule_stability [("G", ["C"])] [("X", "G", "D")] [⟨"", "", "X", "", "G", "C"⟩]
    "X" ("G", "D") 0 ⟨"", "", "X", "", "G", "C"⟩ (by decide) (by decide)
    (by decide) (by decide) (by decide) (by decide) (by decide)

theorem run_rules_provenance (g2c : GroupMap) (rows : List Row) :
    ∀ (st : CatState) (e : String × String × String),
      e ∈ (rows.foldl (processRow g2c) st).rules →
      e ∈ st.rules ∨
        ∃ row ∈ rows, pyStripS row.description = e.1 ∧
          pyStripS row.group = e.2.1 ∧ pyStripS row.category = e.2.2 ∧
          validPair g2c e.2.1 e.2.2 = true := by
  induction rows with
  | nil => intro st e he; exact Or.inl he
  | cons r rest ih =>
    intro st e he
    rw [List.foldl_cons] at he
    rcases ih (processRow g2c st r) e he with hin | ⟨row, hmem, hrest⟩
    · rcases processRow_rules_cases g2c st r with hcs | ⟨hcs, _, hg, hcc, hv, _⟩
      · rw [hcs] at hin; exact Or.inl hin
      · rw [hcs] at hin
        rcases List.mem_append.mp hin with h1 | h1
        · exact Or.inl h1
        · right
          refine ⟨r, List.mem_cons_self r rest, ?_⟩
          rw [List.mem_singleton] at h1
          subst h1
          exact ⟨rfl, rfl, rfl, hv⟩
    · exact Or.inr ⟨row, List.mem_cons_of_mem r hmem, hrest⟩

/-- C4: a row whose (group, category) pair is complete but not in the master
taxonomy never creates or updates a rule (processing such a row leaves the
rule dict untouched), and every entry of the rule store after a run either
was there at the start or originates from a row with a taxonomy-valid pair —
so no entry originates from an invalid row. -/
theorem c4_taxonomy_gate (g2c : GroupMap) (rules0 : Rules) (rows0 : List Row)
    (st : CatState) (row : Row) (e : String × String × String)
    (hg : pyStripS row.group ≠ "") (hc : pyStripS row.category ≠ "")
    (hinv : validPair g2c (pyStripS row.group) (pyStripS row.category) = false)
    (he : e ∈ (categorizeRun g2c rules0 rows0).rules) :
    (processRow g2c st row).rules = st.rules ∧
      (e ∈ rules0 ∨
        ∃ r ∈ rows0, pyStripS r.description = e.1 ∧
          pyStripS r.group = e.2.1 ∧ pyStripS r.category = e.2.2 ∧
          validPair g2c e.2.1 e.2.2 = true) :=
  ⟨processRow_invalid_rules g2c st row hg hc hinv,
    run_rules_provenance g2c rows0 (initState rules0) e he⟩

/-- Witness for C4: an invalid row `(G, B)` leaves the rule dict unchanged,
and the only entry of the final store after running on a valid row `(G, C)`
originates from that valid row. -/
theorem c4_witness :
    (processRow [("G", ["C"])] (initState []) ⟨"", "", "Y", "", "G", "B"⟩).rules =
        (initState []).rules ∧
      (("X", "G", "C") ∈ ([] : Rules) ∨
        ∃ r ∈ [(⟨"", "", "X", "", "G", "C"⟩ : Row)],
          pyStripS r.description = "X" ∧ pyStripS r.group = "G" ∧
          pyStripS r.category = "C" ∧ validPair [("G", ["C"])] "G" "C" = true) :=
  c4_taxonomy_gate [("G", ["C"])] [] [⟨"", "", "X", "", "G", "C"⟩]
    (initState []) ⟨"", "", "Y", "", "G", "B"⟩ ("X", "G", "C")
    (by decide) (by decide) (by decide) (by decide)

theorem run_autofill (g2c : GroupMap) (rows : List Row) :
    ∀ (st : CatState) (i : ℕ) (row : Row) (rg rc : String),
      rows[i]? = some row →
      pyStripS row.description ≠ "" →
      pyStripS row.group = "" → pyStripS row.category = "" →
      st.rules.lookup (pyStripS row.description) = some (rg, rc) →
      (∀ p ∈ st.warnings, p.1 < st.idx) →
      ((rows.foldl (processRow g2c) st).rows)[st.rows.length + i]? =
          some { row with group := rg, category := rc } ∧
        ((rows.foldl (processRow g2c) st).statuses)[st.statuses.length + i]? =
          some TxStatus.autoPending ∧
        st.autoAssigned + 1 ≤ (rows.foldl (processRow g2c) st).autoAssigned ∧
        ∀ w : CatWarning, (st.idx + i, w) ∉ (rows.foldl (processRow g2c) st).warnings := by
  induction rows with
  | nil => intro st i row rg rc h; simp at h
  | cons r rest ih =>
    intro st i row rg rc h hd hg hc hr hwb
    cases i with
    | zero =>
      simp only [List.getElem?_cons_zero, Option.some_inj] at h
      subst h
      have hfill := processRow_fill g2c st r hd hg hc hr
      rw [List.foldl_cons, hfill]
      refine ⟨?_, ?_, ?_, ?_⟩
      · obtain ⟨t, ht⟩ :=
          run_rows_extend g2c rest
            { st with
              rows := st.rows ++ [{ r with group := rg, category := rc }]
              statuses := st.statuses ++ [TxStatus.autoPending]
              idx := st.idx + 1
              totalRows := st.totalRows + 1
              autoAssigned := st.autoAssigned + 1 }
        rw [ht]
        simp only [List.append_assoc, Nat.add_zero]
        exact getElem?_append_len _ _ _
      · obtain ⟨t, ht⟩ :=
          run_statuses_extend g2c rest
            { st with
              rows := st.rows ++ [{ r with group := rg, category := rc }]
              statuses := st.statuses ++ [TxStatus.autoPending]
              idx := st.idx + 1
              totalRows := st.totalRows + 1
              autoAssigned := st.autoAssigned + 1 }
        rw [ht]
        simp only [List.append_assoc, Nat.add_zero]
        exact getElem?_append_len _ _ _
      · have hmono :=
          run_auto_mono g2c rest
            { st with
              rows := st.rows ++ [{ r with group := rg, category := rc }]
              statuses := st.statuses ++ [TxStatus.autoPending]
              idx := st.idx + 1
              totalRows := st.totalRows + 1
              autoAssigned := st.autoAssigned + 1 }
        exact hmono
      · intro w hwmem
        rcases run_warn_mem g2c rest _ hwmem with hin | hle
        · simp only at hin
          have := hwb _ hin
          simp at this
        · simp only at hle
          omega
    | succ n =>
      simp only [List.getElem?_cons_succ] at h
      have hr' := processRow_lookup_mono g2c st r hr
      have hwb' : ∀ p ∈ (processRow g2c st r).warnings, p.1 < (processRow g2c st r).idx := by
        intro p hp
        rw [processRow_idx]
        rcases processRow_warn_mem g2c st r hp with h1 | h1
        · exact Nat.lt_succ_of_lt (hwb p h1)
        · rw [h1]; exact Nat.lt_succ_self _
      have hrec := ih (processRow g2c st r) n row rg rc h hd hg hc hr' hwb'
      obtain ⟨r1, hsh⟩ := processRow_rows_shape g2c st r
      obtain ⟨x1, hss⟩ := processRow_statuses_shape g2c st r
      rw [hsh, List.length_append, List.length_singleton] at hrec
      rw [hss, List.length_append, List.length_singleton] at hrec
      rw [processRow_idx] at hrec
      obtain ⟨h1, h2, h3, h4⟩ := hrec
      rw [List.foldl_cons]
      refine ⟨?_, ?_, ?_, ?_⟩
      · rw [show st.rows.length + (n + 1) = st.rows.length + 1 + n by omega]
        exact h1
      · rw [show st.statuses.length + (n + 1) = st.statuses.length + 1 + n by omega]
        exact h2
      · exact le_trans (Nat.add_le_add_right (processRow_auto_mono g2c st r) 1) h3
      · intro w
        rw [show st.idx + (n + 1) = st.idx + 1 + n by omega]
        exact h4 w

/-- C9: a rule loaded from the store is never validated against the master
taxonomy — an all-blank row whose description matches a loaded rule with a
taxonomy-invalid pair is filled with that invalid pair, given status
`auto-pending`, counted as auto-assigned, and no warning whatsoever is
emitted for that row. -/
theorem c9_loaded_rules_not_validated (g2c : GroupMap) (rules0 : Rules)
    (rows0 : List Row) (i : ℕ) (row : Row) (rg rc : String)
    (hrow : rows0[i]? = some row)
    (hd : pyStripS row.description ≠ "")
    (hg : pyStripS row.group = "") (hc : pyStripS row.category = "")
    (hrule : rules0.lookup (pyStripS row.description) = some (rg, rc))
    (_hinv : validPair g2c rg rc = false) :
    ((categorizeRun g2c rules0 rows0).rows)[i]? =
        some { row with group := rg, category := rc } ∧
      ((categorizeRun g2c rules0 rows0).statuses)[i]? =
        some TxStatus.autoPending ∧
      1 ≤ (categorizeRun g2c rules0 rows0).autoAssigned ∧
      ∀ w : CatWarning, (i + 1, w) ∉ (categorizeRun g2c rules0 rows0).warnings := by
  have h := run_autofill g2c rows0 (initState rules0) i row rg rc hrow hd hg hc
    hrule (by intro p hp; simp [initState] at hp)
  simp only [initState, List.length_nil, Nat.zero_add, List.nil_append] at h
  obtain ⟨h1, h2, h3, h4⟩ := h
  refine ⟨h1, h2, h3, fun w => ?_⟩
  rw [Nat.add_comm i 1]
  exact h4 w

/-- Witness for C9: the loaded rule `X ↦ (H, Z)` is invalid against the
taxonomy `{G → {C}}`, yet a blank row with description `X` is filled with
`(H, Z)`, marked auto-pending, counted, and triggers no warning. -/
theorem c9_witness :
    ((categorizeRun [("G", ["C"])] [("X", "H", "Z")]
          [⟨"", "", "X", "", "", ""⟩]).rows)[0]? =
        some ⟨"", "", "X", "", "H", "Z"⟩ ∧
      ((categorizeRun [("G", ["C"])] [("X", "H", "Z")]
            [⟨"", "", "X", "", "", ""⟩]).statuses)[0]? =
        some TxStatus.autoPending ∧
      1 ≤ (categorizeRun [("G", ["C"])] [("X", "H", "Z")]
            [⟨"", "", "X", "", "", ""⟩]).autoAssigned ∧
      (1, CatWarning.invalidPair) ∉
        (categorizeRun [("G", ["C"])] [("X", "H", "Z")]
            [⟨"", "", "X", "", "", ""⟩]).warnings := by
  have h := c9_loaded_rules_not_validated [("G", ["C"])] [("X", "H", "Z")]
    [⟨"", "", "X", "", "", ""⟩] 0 ⟨"", "", "X", "", "", ""⟩ "H" "Z"
    (by decide) (by decide) (by decide) (by decide) (by decide) (by decide)
  exact ⟨h.1, h.2.1, h.2.2.1, h.2.2.2 CatWarning.invalidPair⟩

theorem processRow_rows_eq_fillRow (g2c : GroupMap) (st : CatState) (row : Row) :
    (processRow g2c st row).rows = st.rows ++ [fillRow st.rules row] := by
  simp only [processRow, fillRow]
  repeat' split
  all_goals simp_all

theorem processRow_lookup_isSome_mono (g2c : GroupMap) (st : CatState) (row : Row)
    {d : String} (h : (st.rules.lookup d).isSome) :
    ((processRow g2c st row).rules.lookup d).isSome := by
  obtain ⟨v, hv⟩ := Option.isSome_iff_exists.mp h
  rw [processRow_lookup_mono g2c st row hv]
  rfl

theorem processRow_bothset_valid_lookup (g2c : GroupMap) (st : CatState) (row : Row)
    (hd : pyStripS row.description ≠ "") (hg : pyStripS row.group ≠ "")
    (hc : pyStripS row.category ≠ "")
    (hv : validPair g2c (pyStripS row.group) (pyStripS row.category) = true) :
    ((processRow g2c st row).rules.lookup (pyStripS row.description)).isSome := by
  simp only [processRow]
  repeat' split
  all_goals simp_all [lookup_append_self]
  all_goals exact ⟨_, _, Or.inr ⟨rfl, rfl⟩⟩

theorem processRow_covered (g2c : GroupMap) (st : CatState) (row : Row)
    (hall : ∀ r ∈ st.rows, ruleCovered g2c st.rules r) :
    ∀ r ∈ (processRow g2c st row).rows,
      ruleCovered g2c (processRow g2c st row).rules r := by
  intro r hr
  rw [processRow_rows_eq_fillRow] at hr
  rcases List.mem_append.mp hr with hold | hnew
  · intro h1 h2 h3 h4
    exact processRow_lookup_isSome_mono g2c st row (hall r hold h1 h2 h3 h4)
  · rw [List.mem_singleton] at hnew
    subst hnew
    by_cases hbranch : pyStripS row.description ≠ "" ∧ pyStripS row.group = "" ∧
        pyStripS row.category = ""
    · unfold fillRow
      rw [if_pos hbranch]
      cases hlk : st.rules.lookup (pyStripS row.description) with
      | some p =>
        obtain ⟨rg, rc⟩ := p
        intro h1 _ _ _
        have hmono := processRow_lookup_mono g2c st row hlk
        simp only at h1 ⊢
        rw [hmono]
        rfl
      | none =>
        intro _ h2 _ _
        exact absurd hbranch.2.1 h2
    · unfold fillRow
      rw [if_neg hbranch]
      intro h1 h2 h3 h4
      exact processRow_bothset_valid_lookup g2c st row h1 h2 h3 h4

theorem run_covered (g2c : GroupMap) (rows : List Row) :
    ∀ st : CatState, (∀ r ∈ st.rows, ruleCovered g2c st.rules r) →
      ∀ r ∈ (rows.foldl (processRow g2c) st).rows,
        ruleCovered g2c (rows.foldl (processRow g2c) st).rules r := by
  induction rows with
  | nil => intro st h; exact h
  | cons r rest ih =>
    intro st h
    rw [List.foldl_cons]
    exact ih (processRow g2c st r) (processRow_covered g2c st r h)

theorem processRow_no_create (g2c : GroupMap) (st : CatState) (row : Row)
    (hcov : ruleCovered g2c st.rules row) :
    (processRow g2c st row).rules = st.rules ∧
      (processRow g2c st row).newRules = st.newRules := by
  unfold ruleCovered at hcov
  simp only [processRow]
  repeat' split
  all_goals simp_all

theorem run_rules_stable (g2c : GroupMap) (rows : List Row) :
    ∀ st : CatState, (∀ r ∈ rows, ruleCovered g2c st.rules r) →
      (rows.foldl (processRow g2c) st).rules = st.rules ∧
        (rows.foldl (processRow g2c) st).newRules = st.newRules := by
  induction rows with
  | nil => intro st _; exact ⟨rfl, rfl⟩
  | cons r rest ih =>
    intro st hall
    obtain ⟨hr1, hr2⟩ :=
      processRow_no_create g2c st r (hall r (List.mem_cons_self r rest))
    rw [List.foldl_cons]
    obtain ⟨ht1, ht2⟩ := ih (processRow g2c st r)
      (by rw [hr1]; exact fun x hx => hall x (List.mem_cons_of_mem r hx))
    exact ⟨ht1.trans hr1, ht2.trans hr2⟩

/-- C2 counterexample: with taxonomy `{G → {C}}`, an empty rule store and the
two-row ledger `[(desc X, blank pair), (desc X, (G, C))]`, the first run
leaves row 1 blank (no rule yet) and then learns `X ↦ (G, C)` from row 2;
the second run auto-assigns row 1 from that rule, so the rewritten ledger
differs from the first run's output and one row is auto-assigned — the
second run is not a no-op as the claim states. -/
theorem c2_counterexample :
    ¬ (let s1 := categorizeRun [("G", ["C"])] []
          [⟨"", "", "X", "", "", ""⟩, ⟨"", "", "X", "", "G", "C"⟩]
       let s2 := categorizeRun [("G", ["C"])] s1.rules s1.rows
       s2.rows = s1.rows ∧ s2.rules = s1.rules ∧ s2.newRules = 0 ∧
         s2.autoAssigned = 0) := by decide

/-- C2 (amended): a second categorization run on the outputs of a first run
(same master taxonomy, no edits in between) rewrites an identical rule store
and creates zero new rules; the ledger, however, can change — rows left
blank by the first run are auto-assigned on the second run when a later row
of the first run created a rule for their description. -/
theorem c2_second_run_rules_stable (g2c : GroupMap) (rules0 : Rules)
    (rows0 : List Row) :
    (categorizeRun g2c (categorizeRun g2c rules0 rows0).rules
          (categorizeRun g2c rules0 rows0).rows).rules =
        (categorizeRun g2c rules0 rows0).rules ∧
      (categorizeRun g2c (categorizeRun g2c rules0 rows0).rules
          (categorizeRun g2c rules0 rows0).rows).newRules = 0 := by
  have hcov := run_covered g2c rows0 (initState rules0)
    (by intro r hr; simp [initState] at hr)
  have h := run_rules_stable g2c (categorizeRun g2c rules0 rows0).rows
    (initState (categorizeRun g2c rules0 rows0).rules) hcov
  exact h

/-- C8: invoking the `categorize` command on a ledger missing at least one of
the six required columns aborts before anything is written: the command
returns `none` (the early `return` of line 303, reached before either output
file is opened), so the ledger file and rule-store file are unchanged. -/
theorem c8_missing_columns_abort (fieldnames : List String) (g2c : GroupMap)
    (rules0 : Rules) (rows : List Row)
    (h : ∃ c ∈ requiredCols, ¬ fieldnames.contains c) :
    categorizeCommand fieldnames g2c rules0 rows = none := by
  obtain ⟨c, hcmem, hnc⟩ := h
  simp only [categorizeCommand]
  have hmem : c ∈ requiredCols.filter (fun c => ¬ fieldnames.contains c) :=
    List.mem_filter.mpr ⟨hcmem, by simpa using hnc⟩
  have hne : requiredCols.filter (fun c => ¬ fieldnames.contains c) ≠ [] := by
    intro hE
    rw [hE] at hmem
    cases hmem
  rw [if_pos hne]

/-- Witness for C8: a header with no `category` column makes the command
return `none`. -/
theorem c8_witness :
    categorizeCommand ["statement_date", "date", "description", "amount", "group"]
      [("G", ["C"])] [] [⟨"", "", "X", "", "", ""⟩] = none :=
  c8_missing_columns_abort
    ["statement_date", "date", "description", "amount", "group"]
    [("G", ["C"])] [] [⟨"", "", "X", "", "", ""⟩] (by decide)

end Moth
